import Mathlib

/-!
Verification development for the `neuroforge` crate: a shallow embedding of
its data model and operations, with theorems settling the specification
claims about them.

Modelling conventions, used throughout:
* `f64` values are embedded into a linear ordered field (`ℚ` or `ℝ`); the
  IEEE value NaN, which arises in this code base only from a division by a
  zero length, is represented by `none` in an `Option`-valued field.
* Rust calls that can panic (vector indexing out of bounds, `unwrap` on a
  failed `partial_cmp`, `ndarray` shape mismatches) are embedded as
  `Option`-returning functions, `none` meaning the call panics.
* Randomness (`rand::thread_rng`) is factored out: every random draw is an
  explicit oracle argument, so theorems quantify over all possible draws.
* Rust iterator `zip` truncates to the shorter operand; the embedding uses
  `List.zip`/index ranges with the same truncation semantics.
-/

/-! ## Adaptive architecture (`src/adaptive_architecture.rs`)

The adaptive module is embedded polymorphically over a linear ordered field
so that concrete computations can be evaluated over `ℚ` while statements
also apply to the real-number idealisation of `f64`. -/

/-- Embedding of `AdaptiveNeuron`.  `importance_score` is `Option`-valued:
`none` models the IEEE NaN produced by `update_importance` on an empty
activation history (`sum / 0.0`). -/
structure AdaptiveNeuron (α : Type) where
  weights : List α
  activation_history : List α
  importance_score : Option α
  deriving DecidableEq

/-- Embedding of `AdaptiveLayer`. -/
structure AdaptiveLayer (α : Type) where
  neurons : List (AdaptiveNeuron α)
  max_neurons : ℕ
  min_neurons : ℕ
  adaptation_threshold : α
  deriving DecidableEq

/-- Oracle for the random draws made during `AdaptiveLayer::adapt`:
`freshW n` is the weight vector drawn for a freshly created neuron of input
size `n`; `mutW i` is the outcome of the mutation step on the neuron at
position `i` (the identity function when the 10% coin fails, otherwise the
per-weight additive perturbation; it only ever rewrites weights). -/
structure AdaptOracle (α : Type) where
  freshW : ℕ → List α
  mutW : ℕ → List α → List α

/-- Source `AdaptiveNeuron::new(input_size)`: random weights (given by the oracle),
empty history, importance score `0.0`. -/
def AdaptiveNeuron.new {α : Type} [LinearOrderedField α] (input_size : ℕ) (w : ℕ → α) : AdaptiveNeuron α :=
  { weights := (List.range input_size).map w
    activation_history := []
    importance_score := some 0 }

/-- Source `AdaptiveNeuron::update_importance`: `avg_activation = Σ history / len`,
then `importance = avg · (1 − emotional_state)`.  On an empty history the
Rust division `0.0 / 0.0` yields NaN, modelled as `none`. -/
def AdaptiveNeuron.update_importance {α : Type} [LinearOrderedField α]
    (emotional_state : α) (n : AdaptiveNeuron α) : AdaptiveNeuron α :=
  { n with
    importance_score :=
      if n.activation_history.isEmpty then none
      else some (n.activation_history.sum / (n.activation_history.length : α)
        * (1 - emotional_state)) }

/-- The sort key used by `adapt`'s `sort_by`: the importance score.  The
`getD 0` branch is never reached on the sorting path (the layer panics
before sorting when a NaN score would be compared, see `adapt`). -/
def importanceKey {α : Type} [LinearOrderedField α] (n : AdaptiveNeuron α) : α :=
  n.importance_score.getD 0

/-- The descending stable sort performed by
`sort_by(|a, b| b.importance_score.partial_cmp(&a.importance_score).unwrap())`.
Rust's `sort_by` is a stable sort; `List.insertionSort` is a stable sort for
the same total preorder, and any two stable sorts agree, so this is an exact
model of the comparison-successful path. -/
def sortByImportance {α : Type} [LinearOrderedField α]
    (l : List (AdaptiveNeuron α)) : List (AdaptiveNeuron α) :=
  @List.insertionSort _ (fun a b => importanceKey b ≤ importanceKey a)
    (fun _ _ => inferInstanceAs (Decidable _)) l

/-- Embedding of `AdaptiveLayer::adapt`.  Steps, as in the source: update all
importance scores; sort descending by importance; grow (append a fresh
neuron sized by `neurons[0].weights.len()`) or shrink (`pop`) depending on
`emotional_state` against the threshold and the size bounds; then run the
mutation pass over the surviving neurons.

`none` models the two panics reachable here: `unwrap` on `partial_cmp`
fails as soon as a NaN importance score is compared (with two or more
neurons every element takes part in at least one comparison, so any NaN
score panics; with fewer than two neurons the sort performs no comparison),
and `self.neurons[0]` panics on an empty bank in the growth branch. -/
def AdaptiveLayer.adapt {α : Type} [LinearOrderedField α]
    (L : AdaptiveLayer α) (o : AdaptOracle α) (emotional_state : α) :
    Option (AdaptiveLayer α) :=
  let updated := L.neurons.map (AdaptiveNeuron.update_importance emotional_state)
  if 2 ≤ updated.length ∧ ∃ n ∈ updated, n.importance_score = none then none
  else
    let sorted := sortByImportance updated
    let resized : Option (List (AdaptiveNeuron α)) :=
      if L.adaptation_threshold < emotional_state ∧ sorted.length < L.max_neurons then
        match sorted with
        | [] => none
        | n0 :: _ => some (sorted ++ [AdaptiveNeuron.new n0.weights.length
            (fun i => (o.freshW n0.weights.length).getD i 0)])
      else if emotional_state < L.adaptation_threshold ∧ L.min_neurons < sorted.length then
        some sorted.dropLast
      else some sorted
    resized.map fun ns =>
      { L with neurons := ns.enum.map fun p => { p.2 with weights := o.mutW p.1 p.2.weights } }

/-- A finite sequence of adaptation calls, each with its own random draws and
emotional state, threaded through `Option` (a panicking call aborts the
sequence). -/
def adaptSeq {α : Type} [LinearOrderedField α]
    (steps : List (AdaptOracle α × α)) (L : AdaptiveLayer α) :
    Option (AdaptiveLayer α) :=
  steps.foldl (fun acc st => acc.bind fun l => l.adapt st.1 st.2) (some L)

/-- Source `AdaptiveNeuron::calculate_gradients`: panics (`none`) when the
activation history is empty (`back().unwrap()`). -/
def AdaptiveNeuron.calculate_gradients {α : Type} [LinearOrderedField α]
    (n : AdaptiveNeuron α) (error : α) : Option (List α) :=
  match n.activation_history.getLast? with
  | none => none
  | some last => some (n.weights.map fun w => error * last * (1 - last) * w)

/-- Source `AdaptiveNeuron::update_weights`: `weights[i] -= lr · gradients[i]` over
the zip of the two vectors (weights beyond the gradient vector's length are
left unchanged, as with Rust's truncating `zip`). -/
def AdaptiveNeuron.update_weights {α : Type} [LinearOrderedField α]
    (n : AdaptiveNeuron α) (gradients : List α) (learning_rate : α) :
    AdaptiveNeuron α :=
  { n with
    weights := (List.zipWith (fun w g => w - learning_rate * g) n.weights gradients)
      ++ n.weights.drop gradients.length }

/-- The loop body of `AdaptiveLayer::backward` over `zip(neurons, error)`:
per neuron, compute the gradients, update the weights, and accumulate the
gradients into `next_error` (an accumulator of width `m`; an index at or
beyond `m` would panic, modelled by `none`). -/
def AdaptiveLayer.backwardAux {α : Type} [LinearOrderedField α]
    (learning_rate : α) (m : ℕ) :
    List (AdaptiveNeuron α × α) → Option ((ℕ → α) × List (AdaptiveNeuron α))
  | [] => some (fun _ => 0, [])
  | (n, e) :: rest => do
    let grads ← n.calculate_gradients e
    if m < grads.length then none
    else do
      let (acc, ns) ← AdaptiveLayer.backwardAux learning_rate m rest
      pure (fun i => grads.getD i 0 + acc i, n.update_weights grads learning_rate :: ns)

/-- Embedding of `AdaptiveLayer::backward`: `next_error` has width
`neurons[0].weights.len()` (panic, i.e. `none`, on an empty bank); the
returned error is the element-wise sum of every unit's gradient vector. -/
def AdaptiveLayer.backward {α : Type} [LinearOrderedField α]
    (L : AdaptiveLayer α) (error : List α) (learning_rate : α) :
    Option (List α × AdaptiveLayer α) :=
  match L.neurons with
  | [] => none
  | n0 :: _ => do
    let m := n0.weights.length
    let (acc, ns) ← AdaptiveLayer.backwardAux learning_rate m
      (L.neurons.zip error)
    pure (List.ofFn (fun i : Fin m => acc i),
      { L with neurons := ns ++ L.neurons.drop (L.neurons.zip error).length })

/-- Source `AdaptiveLayer::new(initial_neurons, max_neurons, min_neurons,
adaptation_threshold)`: `initial_neurons` fresh neurons, each of input size
`initial_neurons`. -/
def AdaptiveLayer.new {α : Type} [LinearOrderedField α] (initial_neurons max_neurons min_neurons : ℕ)
    (adaptation_threshold : α) (w : ℕ → ℕ → α) : AdaptiveLayer α :=
  { neurons := (List.range initial_neurons).map fun i =>
      AdaptiveNeuron.new initial_neurons (w i)
    max_neurons := max_neurons
    min_neurons := min_neurons
    adaptation_threshold := adaptation_threshold }

/-! ## Quantum neurons and layers (`src/quantum_neuron.rs`, `src/lib.rs`)

These use `sin`/`cos`/`π`, so they are embedded over `ℝ`. -/

noncomputable section

/-- Integer truncation toward zero, as used by Rust's `%` on `f64`. -/
def rustTrunc (x : ℝ) : ℤ :=
  if 0 ≤ x then ⌊x⌋ else -⌊-x⌋

/-- Rust's `%` (remainder) on `f64`: `a - b · trunc(a / b)`.  The result has
the sign of the dividend `a` and absolute value below `|b|`. -/
def rustRem (a b : ℝ) : ℝ :=
  a - b * (rustTrunc (a / b) : ℝ)

/-- Embedding of `QuantumNeuron`: a phase and a superposition flag. -/
structure QuantumNeuron where
  phase : ℝ
  superposition : Bool

/-- Source `QuantumNeuron::new()`. -/
def QuantumNeuron.new : QuantumNeuron := ⟨0, false⟩

/-- Embedding of `QuantumNeuron::activate`.  `flip` is the outcome of the
draw `rng.gen::<f64>() < emotional_state` (the numeric `emotional_state`
argument itself is otherwise unused, as in the source).  The phase update is
`phase += input · π · 2` followed by `phase %= 2 · π` with Rust `%`
semantics, which keeps the dividend's sign. -/
def QuantumNeuron.activate (q : QuantumNeuron) (input emotional_state : ℝ)
    (flip : Bool) : ℝ × QuantumNeuron :=
  let phase1 := q.phase + input * Real.pi * 2
  let phase2 := rustRem phase1 (2 * Real.pi)
  let sup := if flip then !q.superposition else q.superposition
  let out := if sup then (Real.sin phase2 + Real.cos phase2) / 2 else Real.sin phase2
  (out, { phase := phase2, superposition := sup })

/-- Embedding of `QuantumNeuron::calculate_gradient`. -/
def QuantumNeuron.calculate_gradient (q : QuantumNeuron) (error : ℝ) : ℝ :=
  if q.superposition then error * (Real.cos q.phase - Real.sin q.phase) / 2
  else error * Real.cos q.phase

/-- Embedding of `QuantumLayer`: `size` neurons and a `size × size` weight
matrix (`Array2` is modelled as its dimension plus a lookup function). -/
structure QuantumLayer where
  size : ℕ
  neurons : List QuantumNeuron
  weights : ℕ → ℕ → ℝ

/-- Source `QuantumLayer::new(size)`: `size` fresh neurons plus a random square
matrix given by the oracle `w`. -/
def QuantumLayer.new (size : ℕ) (w : ℕ → ℕ → ℝ) : QuantumLayer :=
  { size := size, neurons := List.replicate size QuantumNeuron.new, weights := w }

/-- Embedding of `QuantumLayer::forward`.  `self.weights.dot(&input_array)`
panics (`none`) unless the input length equals the matrix's column count,
which for this square matrix is `size`.  Each neuron activates on its
projected component; `flips` are the per-neuron superposition coin draws. -/
def QuantumLayer.forward (L : QuantumLayer) (input : List ℝ)
    (emotional_state : ℝ) (flips : ℕ → Bool) : Option (List ℝ × QuantumLayer) :=
  if input.length = L.size then
    let weighted := fun i => ∑ j ∈ Finset.range L.size, L.weights i j * input.getD j 0
    let pairs := List.ofFn fun i : Fin (min L.neurons.length L.size) =>
      (L.neurons.getD i QuantumNeuron.new).activate (weighted i) emotional_state (flips i)
    some (pairs.map Prod.fst,
      { L with neurons := pairs.map Prod.snd
          ++ L.neurons.drop (min L.neurons.length L.size) })
  else none

/-- The state of `QuantumLayer::backward`'s double loop after the rows
`0 .. n-1` have been processed: first component `next_error` (an accumulator
of width `cols`), second component `weight_gradients`.  The inner loop over
`j` reads `next_error[j]` into `input`, writes
`weight_gradients[[i, j]] = gradient · input`, and only then adds
`error[i] · weights[[i, j]]` to `next_error[j]` — each slot `j` is read
before it is updated, which the per-row simultaneous update below captures
exactly.  `E i` is `error[i]` and `G i` the gradient of neuron `i`. -/
def qlLoop (cols : ℕ) (W : ℕ → ℕ → ℝ) (E G : ℕ → ℝ) (n : ℕ) :
    (ℕ → ℝ) × (ℕ → ℕ → ℝ) :=
  (List.range n).foldl
    (fun st i =>
      (fun j => if j < cols then st.1 j + E i * W i j else st.1 j,
       fun i0 j => if i0 = i ∧ j < cols then G i * st.1 j else st.2 i0 j))
    (fun _ => 0, fun _ _ => 0)

/-- Embedding of `QuantumLayer::backward`.  The outer loop runs over
`zip(neurons, error)` (hence `min` of the lengths, with per-index access);
afterwards `weights -= weight_gradients · learning_rate`, and `next_error`
(of length `shape()[1] = size`) is returned.  The neurons themselves are not
mutated (`calculate_gradient` takes `&self`). -/
def QuantumLayer.backward (L : QuantumLayer) (error : List ℝ)
    (learning_rate : ℝ) : List ℝ × QuantumLayer :=
  let n := min L.neurons.length error.length
  let E := fun i => error.getD i 0
  let G := fun i => (L.neurons.getD i QuantumNeuron.new).calculate_gradient (error.getD i 0)
  let st := qlLoop L.size L.weights E G n
  (List.ofFn fun j : Fin L.size => st.1 j,
   { L with weights := fun i j => L.weights i j - learning_rate * st.2 i j })

end

/-! ## Temporal plasticity (`src/temporal_plasticity.rs`) -/

noncomputable section

/-- Embedding of `TemporalNeuron`. -/
structure TemporalNeuron where
  weights : List ℝ
  delays : List ℝ
  activation_history : List (ℝ × ℝ)
  plasticity : ℝ

/-- Source `TemporalNeuron::temporal_kernel`: `exp(−|t|)`. -/
def temporal_kernel (t : ℝ) : ℝ := Real.exp (-|t|)

/-- The sigmoid `activation_function`. -/
def sigmoid (x : ℝ) : ℝ := 1 / (1 + Real.exp (-x))

/-- Source `TemporalNeuron::new(input_size)`: random weights, delays and plasticity
given by the oracle functions. -/
def TemporalNeuron.new (input_size : ℕ) (w d : ℕ → ℝ) (p : ℝ) : TemporalNeuron :=
  { weights := (List.range input_size).map w
    delays := (List.range input_size).map d
    activation_history := []
    plasticity := p }

/-- Embedding of `TemporalNeuron::activate`: weighted sum over
`zip(zip(input, weights), delays)` with the delay kernel, sigmoid, then the
`(time, activation)` pair is pushed (evicting the front beyond 100). -/
def TemporalNeuron.activate (n : TemporalNeuron) (input : List ℝ) (time : ℝ) :
    ℝ × TemporalNeuron :=
  let ws := (((input.zip n.weights).zip n.delays).map fun p =>
    p.1.1 * p.1.2 * temporal_kernel (time - p.2)).sum
  let a := sigmoid ws
  let hist := n.activation_history ++ [(time, a)]
  let hist2 := if 100 < hist.length then hist.drop 1 else hist
  (a, { n with activation_history := hist2 })

/-- Source `TemporalNeuron::input_size`. -/
def TemporalNeuron.input_size (n : TemporalNeuron) : ℕ := n.weights.length

/-- Source `TemporalNeuron::calculate_gradients`: panics (`none`) on an empty
history (`last().unwrap()`); otherwise
`gradient · wᵢ · kernel(time − dᵢ)` over `zip(weights, delays)`. -/
def TemporalNeuron.calculate_gradients (n : TemporalNeuron) (error : ℝ) :
    Option (List ℝ) :=
  match n.activation_history.getLast? with
  | none => none
  | some (time, last) =>
    some ((n.weights.zip n.delays).map fun p =>
      error * (last * (1 - last)) * p.1 * temporal_kernel (time - p.2))

/-- Rust `f64::clamp(0.0, 1.0)`. -/
def clamp01 (x : ℝ) : ℝ := max 0 (min x 1)

/-- Source `TemporalNeuron::update_weights`: over
`zip(zip(weights, delays), gradients)`, `w -= lr·g`,
`d -= lr·plasticity·g` then `d` is clamped to `[0,1]`; entries beyond the
zip's (truncated) length are unchanged. -/
def TemporalNeuron.update_weights (n : TemporalNeuron) (gradients : List ℝ)
    (learning_rate : ℝ) : TemporalNeuron :=
  let k := min (min n.weights.length n.delays.length) gradients.length
  { n with
    weights := (List.zipWith (fun w g => w - learning_rate * g)
        (n.weights.take k) (gradients.take k)) ++ n.weights.drop k
    delays := (List.zipWith (fun d g => clamp01 (d - learning_rate * n.plasticity * g))
        (n.delays.take k) (gradients.take k)) ++ n.delays.drop k }

/-- Embedding of the `TemporalLayer` defined privately in `lib.rs` (the one
the network uses; `temporal_plasticity.rs` re-declares an identical public
one). -/
structure TemporalLayer where
  neurons : List TemporalNeuron

/-- Source `TemporalLayer::new(size)`: `size` neurons, each of input size `size`. -/
def TemporalLayer.new (size : ℕ) (w d : ℕ → ℕ → ℝ) (p : ℕ → ℝ) : TemporalLayer :=
  { neurons := (List.range size).map fun i => TemporalNeuron.new size (w i) (d i) (p i) }

/-- Source `TemporalLayer::forward`: every neuron activates on the full input. -/
def TemporalLayer.forward (L : TemporalLayer) (input : List ℝ) (time : ℝ) :
    List ℝ × TemporalLayer :=
  let pairs := L.neurons.map fun n => n.activate input time
  (pairs.map Prod.fst, { neurons := pairs.map Prod.snd })

/-- The loop body of `TemporalLayer::backward` over `zip(neurons, error)`,
mirroring `AdaptiveLayer.backwardAux`. -/
def TemporalLayer.backwardAux (learning_rate : ℝ) (m : ℕ) :
    List (TemporalNeuron × ℝ) → Option ((ℕ → ℝ) × List TemporalNeuron)
  | [] => some (fun _ => 0, [])
  | (n, e) :: rest => do
    let grads ← n.calculate_gradients e
    if m < grads.length then none
    else do
      let (acc, ns) ← TemporalLayer.backwardAux learning_rate m rest
      pure (fun i => grads.getD i 0 + acc i, n.update_weights grads learning_rate :: ns)

/-- Embedding of `TemporalLayer::backward`: `next_error` has width
`neurons[0].input_size()` (panic on an empty bank); the returned error is
the fan-in sum of per-neuron gradient vectors. -/
def TemporalLayer.backward (L : TemporalLayer) (error : List ℝ)
    (learning_rate : ℝ) : Option (List ℝ × TemporalLayer) :=
  match L.neurons with
  | [] => none
  | n0 :: _ => do
    let m := n0.input_size
    let (acc, ns) ← TemporalLayer.backwardAux learning_rate m (L.neurons.zip error)
    pure (List.ofFn (fun i : Fin m => acc i),
      { neurons := ns ++ L.neurons.drop (L.neurons.zip error).length })

end

/-! ## Neuro-symbolic layer (`src/neuro_symbolic.rs`)

The rule table is a `HashMap` in the source; its iteration order is
unspecified but fixed for a given map state, and both the forward append and
the backward `keys().position` attribution run over the same order.  The
embedding therefore uses an explicitly ordered association list, the rule's
slot being its list index.  This module is polymorphic and computable so
concrete rule computations can be evaluated over `ℚ`. -/

/-- Embedding of `NeuroSymbolicLayer`. -/
structure NeuroSymbolicLayer (α : Type) where
  symbolic_rules : List (String × (List α → α))
  neural_output : List α

/-- Source `NeuroSymbolicLayer::new()`. -/
def NeuroSymbolicLayer.new (α : Type) : NeuroSymbolicLayer α := ⟨[], []⟩

/-- Embedding of `NeuroSymbolicLayer::process`: caches the incoming vector
as `neural_output`, then pushes one output per rule; note each rule is
evaluated against the vector *including* the previously pushed rule
outputs, exactly as `rule(&input)` after earlier `input.push` calls. -/
def NeuroSymbolicLayer.process {α : Type} (L : NeuroSymbolicLayer α)
    (input : List α) : List α × NeuroSymbolicLayer α :=
  (L.symbolic_rules.foldl (fun acc r => acc ++ [r.2 acc]) input,
   { L with neural_output := input })

/-- The central finite difference used by the backward pass:
`(rule(x + ε·eᵢ) − rule(x − ε·eᵢ)) / (2ε)` with `ε = 1e-5`. -/
def centralDiff {α : Type} [LinearOrderedField α] (f : List α → α)
    (x : List α) (i : ℕ) : α :=
  let epsilon : α := 1 / 100000
  (f (x.set i (x.getD i 0 + epsilon)) - f (x.set i (x.getD i 0 - epsilon)))
    / (2 * epsilon)

/-- Embedding of `NeuroSymbolicLayer::backward`.  With `n` the cached
vector's length and `r` the rule count, the combination loop indexes
`error[i]` for every `i < n` and `error[n + slot]` for every rule, so the
call panics (`none`) unless `error` is long enough (when `n = 0` neither
loop body runs and the empty vector is returned). -/
def NeuroSymbolicLayer.backward {α : Type} [LinearOrderedField α]
    (L : NeuroSymbolicLayer α) (error : List α) : Option (List α) :=
  let n := L.neural_output.length
  if n = 0 then some []
  else if n + L.symbolic_rules.length ≤ error.length then
    some (List.ofFn fun i : Fin n =>
      error.getD i 0 + (L.symbolic_rules.enum.map fun p =>
        error.getD (n + p.1) 0 * centralDiff p.2.2 L.neural_output i).sum
    )
  else none

/-- Fixed two-decimal formatting of a nonnegative rational, modelling Rust's
`{:.2}` for the values this development evaluates (`6.00` exactly); the
scaled value is rounded half-up via integer arithmetic on `num`/`den`. -/
def fmt2 (q : ℚ) : String :=
  let c : ℕ := (q.num * 200 + (q.den : ℤ)).toNat / (2 * q.den)
  toString (c / 100) ++ "." ++ (if c % 100 < 10 then "0" else "") ++ toString (c % 100)

/-- The single quote character, written by code point. -/
def squote : String := String.singleton (Char.ofNat 39)

/-- Embedding of `NeuroSymbolicLayer::explain`:
`format!("Rule '{}' output: {:.2}", name, rule(&self.neural_output))` per
rule, in the table's enumeration order. -/
def NeuroSymbolicLayer.explain (L : NeuroSymbolicLayer ℚ) : List String :=
  L.symbolic_rules.map fun r =>
    "Rule " ++ squote ++ r.1 ++ squote ++ " output: " ++ fmt2 (r.2 L.neural_output)

/-! ## Emotional memory (`src/emotional_memory.rs`) -/

noncomputable section

/-- Embedding of `EmotionalMemory` (out-of-scope collaborator; only `store`
is exercised by the network's forward pass). -/
structure EmotionalMemory where
  memories : List (List ℝ × ℝ)
  capacity : ℕ

/-- Source `EmotionalMemory::new(capacity)`. -/
def EmotionalMemory.new (capacity : ℕ) : EmotionalMemory := ⟨[], capacity⟩

/-- Source `EmotionalMemory::store`: evicts the oldest entry at capacity, then
appends. -/
def EmotionalMemory.store (m : EmotionalMemory) (memory : List ℝ)
    (emotional_intensity : ℝ) : EmotionalMemory :=
  { m with memories :=
      (if m.capacity ≤ m.memories.length then m.memories.drop 1 else m.memories)
        ++ [(memory, emotional_intensity)] }

/-! ## The network orchestrator (`src/lib.rs`) -/

/-- Embedding of `NeuroForge`. -/
structure NeuroForge where
  quantum_layers : List QuantumLayer
  adaptive_layers : List (AdaptiveLayer ℝ)
  temporal_layers : List TemporalLayer
  emotional_memory : EmotionalMemory
  neuro_symbolic_layer : NeuroSymbolicLayer ℝ
  emotional_state : ℝ

/-- Oracle for the random draws made during `NeuroForge::new`: weight (and
delay/plasticity) initialisers for the bank constructed at each
configuration position. -/
structure RngOracle where
  qW : ℕ → ℕ → ℕ → ℝ
  aW : ℕ → ℕ → ℕ → ℝ
  tW : ℕ → ℕ → ℕ → ℝ
  tD : ℕ → ℕ → ℕ → ℝ
  tP : ℕ → ℕ → ℝ

/-- The constructor loop of `NeuroForge::new` over
`layer_sizes.zip(adaptive_layers.zip(temporal_layers))` (position index `k`
seeds the oracle): an adaptive flag wins over a temporal one; with both
flags false a quantum layer is pushed. -/
def buildLayers (o : RngOracle) : List (ℕ × Bool × Bool) → ℕ →
    List QuantumLayer × List (AdaptiveLayer ℝ) × List TemporalLayer
  | [], _ => ([], [], [])
  | (size, isAdaptive, isTemporal) :: rest, k =>
    let built := buildLayers o rest (k + 1)
    if isAdaptive then
      (built.1, AdaptiveLayer.new size (size * 2) (size / 2) (1 / 10) (o.aW k) :: built.2.1,
        built.2.2)
    else if isTemporal then
      (built.1, built.2.1, TemporalLayer.new size (o.tW k) (o.tD k) (o.tP k) :: built.2.2)
    else
      (QuantumLayer.new size (o.qW k) :: built.1, built.2.1, built.2.2)

/-- Embedding of `NeuroForge::new`: parallel configuration arrays (truncated
to the shortest by `zip`), adaptive bounds `max = 2·size`,
`min = size / 2` (integer division), threshold `0.1`; memory capacity 100,
no symbolic rules, emotional state `0.5`. -/
def NeuroForge.new (layer_sizes : List ℕ) (adaptive_layers temporal_layers : List Bool)
    (o : RngOracle) : NeuroForge :=
  let built := buildLayers o (layer_sizes.zip (adaptive_layers.zip temporal_layers)) 0
  { quantum_layers := built.1
    adaptive_layers := built.2.1
    temporal_layers := built.2.2
    emotional_memory := EmotionalMemory.new 100
    neuro_symbolic_layer := NeuroSymbolicLayer.new ℝ
    emotional_state := 1 / 2 }

/-- Source `AdaptiveLayer::forward`: every neuron activates on the full input
(weighted sum over the truncating `zip`, then sigmoid, pushed into the
bounded history). -/
def AdaptiveNeuron.activate (n : AdaptiveNeuron ℝ) (input : List ℝ) :
    ℝ × AdaptiveNeuron ℝ :=
  let ws := ((input.zip n.weights).map fun p => p.1 * p.2).sum
  let a := sigmoid ws
  let hist := if 100 ≤ n.activation_history.length
    then n.activation_history.drop 1 else n.activation_history
  (a, { n with activation_history := hist ++ [a] })

/-- Source `AdaptiveLayer::forward`. -/
def AdaptiveLayer.forward (L : AdaptiveLayer ℝ) (input : List ℝ) :
    List ℝ × AdaptiveLayer ℝ :=
  let pairs := L.neurons.map fun n => n.activate input
  (pairs.map Prod.fst, { L with neurons := pairs.map Prod.snd })

/-- The quantum stage of `NeuroForge::forward`: threads the running vector
through the quantum layers in order (layer `k` uses coin draws `flips k`). -/
def qForwardList (flips : ℕ → ℕ → Bool) (emotional_state : ℝ) :
    List QuantumLayer → List ℝ → ℕ → Option (List ℝ × List QuantumLayer)
  | [], cur, _ => some (cur, [])
  | L :: Ls, cur, k => do
    let (out, L') ← L.forward cur emotional_state (flips k)
    let (res, Ls') ← qForwardList flips emotional_state Ls out (k + 1)
    pure (res, L' :: Ls')

/-- The adaptive stage of `NeuroForge::forward`. -/
def aForwardList : List (AdaptiveLayer ℝ) → List ℝ →
    List ℝ × List (AdaptiveLayer ℝ)
  | [], cur => (cur, [])
  | L :: Ls, cur =>
    let (out, L') := L.forward cur
    let (res, Ls') := aForwardList Ls out
    (res, L' :: Ls')

/-- The temporal stage of `NeuroForge::forward`. -/
def tForwardList (time : ℝ) : List TemporalLayer → List ℝ →
    List ℝ × List TemporalLayer
  | [], cur => (cur, [])
  | L :: Ls, cur =>
    let (out, L') := L.forward cur time
    let (res, Ls') := tForwardList time Ls out
    (res, L' :: Ls')

/-- Embedding of `NeuroForge::forward`: quantum → adaptive → temporal →
symbolic overlay, then the result is stored into the emotional memory with
the current emotional state. -/
def NeuroForge.forward (net : NeuroForge) (input : List ℝ) (time : ℝ)
    (flips : ℕ → ℕ → Bool) : Option (List ℝ × NeuroForge) := do
  let (c1, qls) ← qForwardList flips net.emotional_state net.quantum_layers input 0
  let (c2, als) := aForwardList net.adaptive_layers c1
  let (c3, tls) := tForwardList time net.temporal_layers c2
  let (c4, nsl) := net.neuro_symbolic_layer.process c3
  pure (c4,
    { net with
      quantum_layers := qls
      adaptive_layers := als
      temporal_layers := tls
      neuro_symbolic_layer := nsl
      emotional_memory := net.emotional_memory.store c4 net.emotional_state })

/-- Threads an error vector backward through a list of layers (already
reversed by the caller), collecting each layer's updated state. -/
def threadBack {L : Type} (f : L → List ℝ → ℝ → Option (List ℝ × L)) :
    List L → List ℝ → ℝ → Option (List ℝ × List L)
  | [], e, _ => some (e, [])
  | l :: ls, e, lr => do
    let (e', l') ← f l e lr
    let (e'', ls') ← threadBack f ls e' lr
    pure (e'', l' :: ls')

/-- Embedding of `NeuroForge::backward`: seeds the error with the target
vector, runs the symbolic overlay's backward, then temporal, adaptive and
quantum banks in reverse pipeline order, and returns
`Σ e² / len` of the final vector together with the updated network. -/
def NeuroForge.backward (net : NeuroForge) (target : List ℝ)
    (learning_rate : ℝ) : Option (ℝ × NeuroForge) := do
  let e0 ← net.neuro_symbolic_layer.backward target
  let (e1, tls) ← threadBack TemporalLayer.backward
    net.temporal_layers.reverse e0 learning_rate
  let (e2, als) ← threadBack AdaptiveLayer.backward
    net.adaptive_layers.reverse e1 learning_rate
  let (e3, qls) ← threadBack (fun L e lr => some (QuantumLayer.backward L e lr))
    net.quantum_layers.reverse e2 learning_rate
  pure ((e3.map fun e => e ^ 2).sum / (e3.length : ℝ),
    { net with
      temporal_layers := tls.reverse
      adaptive_layers := als.reverse
      quantum_layers := qls.reverse })

end

/-! ## Specification-side views

These definitions transcribe claim/spec wording (not the source) and exist
to be compared against the source-derived definitions above. -/

noncomputable section

/-- The spec's description of the stochastic bank's backward pass: the
per-unit local gradients are projected back through the pre-update weight
matrix to give the input-dimension error vector, and the weight matrix is
updated by `weights -= learning_rate · outer(gradient_per_unit,
diffused_input_error)` with the fully-computed diffused error vector. -/
def specQuantumBackward (L : QuantumLayer) (error : List ℝ)
    (learning_rate : ℝ) : List ℝ × QuantumLayer :=
  let n := min L.neurons.length error.length
  let G := fun i => (L.neurons.getD i QuantumNeuron.new).calculate_gradient (error.getD i 0)
  let diffused := List.ofFn fun j : Fin L.size =>
    ∑ i ∈ Finset.range n, G i * L.weights i j
  (diffused,
   { L with weights := fun i j => L.weights i j - learning_rate * (G i * diffused.getD j 0) })

/-- Threads an error vector backward through a (reversed) list of layers,
keeping only the propagated vector. -/
def errFold {L : Type} (f : L → List ℝ → ℝ → Option (List ℝ × L)) :
    List L → List ℝ → ℝ → Option (List ℝ)
  | [], e, _ => some e
  | l :: ls, e, lr => (f l e lr).bind fun p => errFold f ls p.1 lr

/-- Mean of squares of a vector's components. -/
def meanSquares (l : List ℝ) : ℝ := (l.map fun e => e ^ 2).sum / (l.length : ℝ)

/-- The claim's description of `NeuroForge::backward`: the raw target vector
itself is handed to the symbolic overlay's backward, the result is threaded
through temporal, adaptive and quantum banks in reverse pipeline order, and
the returned scalar is the mean of squares of the fully back-propagated
vector. -/
def NeuroForge.backwardSpec (net : NeuroForge) (target : List ℝ)
    (learning_rate : ℝ) : Option ℝ :=
  ((net.neuro_symbolic_layer.backward target).bind fun e0 =>
    (errFold TemporalLayer.backward net.temporal_layers.reverse e0 learning_rate).bind
      fun e1 =>
      (errFold AdaptiveLayer.backward net.adaptive_layers.reverse e1 learning_rate).bind
        fun e2 =>
        errFold (fun L e lr => some (QuantumLayer.backward L e lr))
          net.quantum_layers.reverse e2 learning_rate).map meanSquares

end

/-! ## Helper lemmas -/

/-- Unrolling one row of the backward double loop. -/
lemma qlLoop_succ (cols : ℕ) (W : ℕ → ℕ → ℝ) (E G : ℕ → ℝ) (n : ℕ) :
    qlLoop cols W E G (n + 1) =
      (fun j => if j < cols then (qlLoop cols W E G n).1 j + E n * W n j
        else (qlLoop cols W E G n).1 j,
       fun i0 j => if i0 = n ∧ j < cols then G n * (qlLoop cols W E G n).1 j
        else (qlLoop cols W E G n).2 i0 j) := by
  unfold qlLoop
  rw [List.range_succ, List.foldl_append]
  rfl

/-- Closed form of the accumulator `next_error` after `n` rows: the raw
per-unit errors projected through the (pre-update) weight matrix. -/
lemma qlLoop_fst (cols : ℕ) (W : ℕ → ℕ → ℝ) (E G : ℕ → ℝ) :
    ∀ n, (qlLoop cols W E G n).1 =
      fun j => if j < cols then ∑ i ∈ Finset.range n, E i * W i j else 0 := by
  intro n
  induction n with
  | zero => funext j; simp [qlLoop]
  | succ n ih =>
    rw [qlLoop_succ, ih]
    funext j
    by_cases hj : j < cols
    · simp [hj, Finset.sum_range_succ]
    · simp [hj]

/-- Closed form of `weight_gradients` after `n` rows: row `i` multiplies the
gradient by the *partial* accumulator value, i.e. the sum over the rows
before `i` only. -/
lemma qlLoop_snd (cols : ℕ) (W : ℕ → ℕ → ℝ) (E G : ℕ → ℝ) :
    ∀ n, (qlLoop cols W E G n).2 =
      fun i j => if i < n ∧ j < cols
        then G i * ∑ k ∈ Finset.range i, E k * W k j else 0 := by
  intro n
  induction n with
  | zero => funext i j; simp [qlLoop]
  | succ n ih =>
    rw [qlLoop_succ, ih, qlLoop_fst]
    funext i j
    dsimp only
    by_cases hj : j < cols
    · by_cases hi : i = n
      · subst hi
        simp [hj, Nat.lt_succ_self]
      · have h1 : ¬(i = n ∧ j < cols) := fun hc => hi hc.1
        rw [if_neg h1]
        by_cases hin : i < n
        · rw [if_pos ⟨hin, hj⟩, if_pos ⟨Nat.lt_succ_of_lt hin, hj⟩]
        · have h2 : ¬(i < n ∧ j < cols) := fun hc => hin hc.1
          have h3 : ¬(i < n + 1 ∧ j < cols) := by
            intro hc
            exact hi (by omega)
          rw [if_neg h2, if_neg h3]
    · have h1 : ¬(i = n ∧ j < cols) := fun hc => hj hc.2
      have h2 : ¬(i < n ∧ j < cols) := fun hc => hj hc.2
      have h3 : ¬(i < n + 1 ∧ j < cols) := fun hc => hj hc.2
      rw [if_neg h1, if_neg h2, if_neg h3]

/-! ## Claim C1 — stochastic bank backward pass -/

/-- C1 (amended): what `QuantumLayer::backward` actually computes.  The
returned error vector has length `shape()[1] = size` (the input dimension)
and propagates the *raw* per-unit errors — not the local gradients — through
the pre-update weight matrix: `next_error[j] = Σᵢ error[i] · W[i][j]`.  The
weight update for row `i` multiplies that unit's local gradient by the
*partially built* accumulator (the sum over rows before `i` only — in
particular row `0` is never changed), not by the fully-computed
input-dimension error vector. -/
theorem quantumBackwardCharacterisation (L : QuantumLayer) (error : List ℝ)
    (learning_rate : ℝ)
    (hn : L.neurons.length = L.size) (he : error.length = L.size) :
    (L.backward error learning_rate).1
      = (List.ofFn fun j : Fin L.size =>
          ∑ i ∈ Finset.range L.size, error.getD i 0 * L.weights i j) ∧
    ∀ i j, i < L.size → j < L.size →
      (L.backward error learning_rate).2.weights i j
        = L.weights i j - learning_rate *
            ((L.neurons.getD i QuantumNeuron.new).calculate_gradient (error.getD i 0)
              * ∑ k ∈ Finset.range i, error.getD k 0 * L.weights k j) := by
  have hmin : min L.neurons.length error.length = L.size := by
    rw [hn, he, min_self]
  constructor
  · unfold QuantumLayer.backward
    dsimp only
    rw [hmin, qlLoop_fst]
    exact congrArg List.ofFn (funext fun j => by simp [j.isLt])
  · intro i j hi hj
    unfold QuantumLayer.backward
    dsimp only
    rw [hmin, qlLoop_snd]
    simp [hi, hj]

/-- C1 (counterexample): a single superposed unit at phase `0` with unit
weight matrix, unit error, unit learning rate.  The source's backward
returns `[1]` (the raw error through the matrix) whereas the spec's wording
(`specQuantumBackward`) returns `[1/2]` (the gradient through the matrix),
so the claim is false as stated. -/
theorem quantumBackwardCounterexample :
    (QuantumLayer.backward ⟨1, [⟨0, true⟩], fun _ _ => 1⟩ [1] 1).1
      ≠ (specQuantumBackward ⟨1, [⟨0, true⟩], fun _ _ => 1⟩ [1] 1).1 := by
  unfold QuantumLayer.backward specQuantumBackward
  dsimp only
  rw [qlLoop_fst]
  intro h
  have h0 := congrArg (fun l => l.getD 0 0) h
  simp only [List.getD_eq_getElem?_getD, List.getElem?_ofFn] at h0
  norm_num [Finset.sum_range_one, QuantumNeuron.calculate_gradient,
    List.ofFnNthVal, Real.cos_zero, Real.sin_zero] at h0

/-- C1 (witness): the characterisation applied to a concrete two-unit
layer. -/
theorem quantumBackwardCharacterisationWitness :
    (([⟨0, false⟩, ⟨0, false⟩] : List QuantumNeuron).length = 2 ∧
      ([1, 1] : List ℝ).length = 2) ∧
    ((QuantumLayer.backward ⟨2, [⟨0, false⟩, ⟨0, false⟩], fun _ _ => 1⟩ [1, 1] 1).1
      = (List.ofFn fun j : Fin (2:ℕ) =>
          ∑ i ∈ Finset.range 2, ([1, 1] : List ℝ).getD i 0 * 1) ∧
     ∀ i j, i < 2 → j < 2 →
      (QuantumLayer.backward ⟨2, [⟨0, false⟩, ⟨0, false⟩], fun _ _ => 1⟩ [1, 1] 1).2.weights i j
        = 1 - 1 * ((([⟨0, false⟩, ⟨0, false⟩] : List QuantumNeuron).getD i
              QuantumNeuron.new).calculate_gradient (([1, 1] : List ℝ).getD i 0)
            * ∑ k ∈ Finset.range i, ([1, 1] : List ℝ).getD k 0 * 1)) :=
  ⟨⟨rfl, rfl⟩,
    quantumBackwardCharacterisation ⟨2, [⟨0, false⟩, ⟨0, false⟩], fun _ _ => 1⟩
      [1, 1] 1 rfl rfl⟩

/-! ## Claim C8 — stochastic unit phase range -/

/-- Rust's `%` keeps the dividend's sign: for a positive modulus the result
lies strictly between `-b` and `b`. -/
lemma rustRem_bounds (a b : ℝ) (hb : 0 < b) :
    -b < rustRem a b ∧ rustRem a b < b := by
  have hb' : b ≠ 0 := ne_of_gt hb
  have ha : b * (a / b) = a := mul_div_cancel₀ a hb'
  unfold rustRem rustTrunc
  by_cases h : 0 ≤ a / b
  · rw [if_pos h]
    have hfr : a - b * (⌊a / b⌋ : ℝ) = b * Int.fract (a / b) := by
      rw [Int.fract, mul_sub, ha]
    rw [hfr]
    constructor
    · have : 0 ≤ b * Int.fract (a / b) :=
        mul_nonneg hb.le (Int.fract_nonneg _)
      linarith
    · have := (mul_lt_mul_left hb).mpr (Int.fract_lt_one (a / b))
      simpa using this
  · rw [if_neg h]
    have hfr : a - b * ((-⌊-(a / b)⌋ : ℤ) : ℝ) = -(b * Int.fract (-(a / b))) := by
      rw [Int.fract, mul_sub, mul_neg, ha]
      push_cast
      ring
    rw [hfr]
    constructor
    · have := (mul_lt_mul_left hb).mpr (Int.fract_lt_one (-(a / b)))
      simpa using this
    · have : 0 ≤ b * Int.fract (-(a / b)) :=
        mul_nonneg hb.le (Int.fract_nonneg _)
      linarith

/-- C8 (amended): after every `activate` call — whatever the prior phase,
the input (negative inputs included) and the superposition coin — the phase
lies in the open interval `(-2π, 2π)`.  The spec's `[0, 2π)` fails for
negative pre-reduction phases because Rust's `%` keeps the dividend's
sign. -/
theorem phaseWithinTwoPi (q : QuantumNeuron) (input emotional_state : ℝ)
    (flip : Bool) :
    -(2 * Real.pi) < ((q.activate input emotional_state flip).2).phase ∧
      ((q.activate input emotional_state flip).2).phase < 2 * Real.pi := by
  have h2pi : (0 : ℝ) < 2 * Real.pi := by positivity
  simpa [QuantumNeuron.activate] using
    rustRem_bounds (q.phase + input * Real.pi * 2) (2 * Real.pi) h2pi

/-- C8 (counterexample): a fresh unit activated once on input `-1/4` ends
with phase `-π/2`, which is negative, so `phase ∈ [0, 2π)` is violated. -/
theorem phaseNegativeCounterexample :
    ((QuantumNeuron.activate ⟨0, false⟩ (-(1 / 4)) 0 false).2).phase < 0 := by
  have hpi := Real.pi_pos
  have harg : (0 : ℝ) + -(1 / 4) * Real.pi * 2 = -(Real.pi / 2) := by ring
  have hdiv : -(Real.pi / 2) / (2 * Real.pi) = -(1 / 4 : ℝ) := by
    rw [div_eq_iff (by positivity : (2 : ℝ) * Real.pi ≠ 0)]
    ring
  have htr : rustTrunc (-(Real.pi / 2) / (2 * Real.pi)) = 0 := by
    rw [hdiv]
    unfold rustTrunc
    rw [if_neg (by norm_num)]
    norm_num [Int.floor_eq_zero_iff, Set.mem_Ico]
  show rustRem ((0 : ℝ) + -(1 / 4) * Real.pi * 2) (2 * Real.pi) < 0
  rw [harg]
  unfold rustRem
  rw [htr]
  push_cast
  linarith

/-! ## Claim C7 — mismatched input lengths -/

/-- A `zip` only ever reads the first `w.length` elements of its left
operand. -/
lemma zip_take_left {β γ : Type} :
    ∀ (l : List β) (w : List γ), l.zip w = (l.take w.length).zip w := by
  intro l
  induction l with
  | nil => intro w; simp
  | cons a l ih =>
    intro w
    cases w with
    | nil => simp
    | cons b w => simp [ih]

/-- C7 (amended): there is no contract check — `ElasticBank` and `DelayBank`
unit activation compute over the truncating `zip` of input and weights, so
the call succeeds for every input length, silently ignoring the input
components beyond the weight vector (and treating missing components as
absent terms of the sum). -/
theorem activationTruncatesSilently :
    (∀ (n : AdaptiveNeuron ℝ) (input : List ℝ),
      n.activate input = n.activate (input.take n.weights.length)) ∧
    (∀ (t : TemporalNeuron) (input : List ℝ) (time : ℝ),
      t.activate input time = t.activate (input.take t.weights.length) time) := by
  constructor
  · intro n input
    unfold AdaptiveNeuron.activate
    rw [← zip_take_left]
  · intro t input time
    unfold TemporalNeuron.activate
    rw [← zip_take_left]

/-- C7 (counterexample): an `ElasticBank` unit with a single weight,
activated on a two-component input: the call does not fail — it returns
exactly the activation of the truncated input, the second component being
silently dropped. -/
theorem mismatchedActivationCounterexample :
    ([2, 5] : List ℝ).length ≠ (⟨[1], [], some 0⟩ : AdaptiveNeuron ℝ).weights.length ∧
    (⟨[1], [], some 0⟩ : AdaptiveNeuron ℝ).activate [2, 5]
      = (⟨[1], [], some 0⟩ : AdaptiveNeuron ℝ).activate [2] := by
  exact ⟨by decide, rfl⟩

/-! ## Claims C3/C4/C6 — adaptation: helper lemmas -/

lemma length_sortByImportance {α : Type} [LinearOrderedField α]
    (l : List (AdaptiveNeuron α)) : (sortByImportance l).length = l.length :=
  (List.perm_insertionSort _ l).length_eq

lemma mem_sortByImportance {α : Type} [LinearOrderedField α]
    {l : List (AdaptiveNeuron α)} {n : AdaptiveNeuron α} (h : n ∈ l) :
    n ∈ sortByImportance l :=
  (List.perm_insertionSort _ l).mem_iff.mpr h

lemma sorted_sortByImportance {α : Type} [LinearOrderedField α]
    (l : List (AdaptiveNeuron α)) :
    List.Sorted (fun a b => importanceKey b ≤ importanceKey a)
      (sortByImportance l) := by
  letI : IsTotal (AdaptiveNeuron α) (fun a b => importanceKey b ≤ importanceKey a) :=
    ⟨fun a b => le_total _ _⟩
  letI : IsTrans (AdaptiveNeuron α) (fun a b => importanceKey b ≤ importanceKey a) :=
    ⟨fun _ _ _ h1 h2 => le_trans h2 h1⟩
  exact List.sorted_insertionSort _ l

/-- In a list sorted descending by importance, the last element has minimal
importance. -/
lemma sorted_getLast?_min {α : Type} [LinearOrderedField α] :
    ∀ (l : List (AdaptiveNeuron α)),
      List.Sorted (fun a b => importanceKey b ≤ importanceKey a) l →
      ∀ m, l.getLast? = some m → ∀ x ∈ l, importanceKey m ≤ importanceKey x := by
  intro l
  induction l with
  | nil => intro _ m hm; simp at hm
  | cons a t ih =>
    intro hs m hm x hx
    cases t with
    | nil =>
      simp at hm hx
      subst hm; subst hx
      exact le_refl _
    | cons b t2 =>
      rw [List.getLast?_cons_cons] at hm
      rcases List.mem_cons.mp hx with hxa | hxt
      · subst hxa
        have hmem : m ∈ b :: t2 := by
          have hne : (b :: t2 : List (AdaptiveNeuron α)) ≠ [] := by simp
          have h1 : (b :: t2).getLast? = some ((b :: t2).getLast hne) :=
            List.getLast?_eq_getLast (b :: t2) hne
          rw [h1] at hm
          have h2 : (b :: t2).getLast hne = m := by injection hm
          exact h2 ▸ List.getLast_mem hne
        exact (List.sorted_cons.mp hs).1 m hmem
      · exact ih (List.sorted_cons.mp hs).2 m hm x hxt

/-- The mutation pass only rewrites weights: histories and importance scores
pass through unchanged, position by position. -/
lemma pairs_enumFrom_map {α : Type} (f : ℕ → List α → List α) :
    ∀ (k : ℕ) (l : List (AdaptiveNeuron α)),
      (((List.enumFrom k l).map fun p =>
          { p.2 with weights := f p.1 p.2.weights }).map
        fun n => (n.activation_history, n.importance_score))
      = l.map fun n => (n.activation_history, n.importance_score) := by
  intro k l
  induction l generalizing k with
  | nil => simp
  | cons a t ih => simp [List.enumFrom, ih]

/-! ## Claim C6 — empty activation history is not guarded -/

/-- C6 (amended): `update_importance` divides by the history length with no
guard, so a unit with an empty activation history gets a NaN importance
score; as soon as the bank holds at least two units (e.g. any
just-constructed multi-unit bank) the adaptation call then panics in
`sort_by(... .partial_cmp(..).unwrap())` instead of returning. -/
theorem emptyHistoryAdaptPanics {α : Type} [LinearOrderedField α]
    (L : AdaptiveLayer α) (o : AdaptOracle α) (s : α)
    (h2 : 2 ≤ L.neurons.length)
    (hh : ∃ n ∈ L.neurons, n.activation_history = []) :
    L.adapt o s = none := by
  unfold AdaptiveLayer.adapt
  rw [if_pos]
  constructor
  · simpa using h2
  · obtain ⟨n, hn, he⟩ := hh
    refine ⟨AdaptiveNeuron.update_importance s n, List.mem_map_of_mem _ hn, ?_⟩
    simp [AdaptiveNeuron.update_importance, he]

/-- C6 (counterexample): a freshly constructed two-unit bank (importance
recomputation hits two empty histories): the adaptation call fails instead
of returning a value, so the division is not guarded. -/
theorem freshBankAdaptCounterexample :
    (⟨[⟨[], [], some 0⟩, ⟨[], [], some 0⟩], 4, 1, 0⟩ : AdaptiveLayer ℚ).adapt
      ⟨fun _ => [], fun _ w => w⟩ 0 = none := by decide

/-- C6 (witness): the amended theorem applied to a concrete three-unit
bank with one never-activated unit. -/
theorem emptyHistoryAdaptPanicsWitness :
    (2 ≤ (⟨[⟨[1], [1], some 0⟩, ⟨[1], [], some 0⟩, ⟨[1], [1], some 0⟩], 6, 1, 0⟩ :
        AdaptiveLayer ℚ).neurons.length) ∧
    (∃ n ∈ (⟨[⟨[1], [1], some 0⟩, ⟨[1], [], some 0⟩, ⟨[1], [1], some 0⟩], 6, 1, 0⟩ :
        AdaptiveLayer ℚ).neurons, n.activation_history = []) ∧
    (⟨[⟨[1], [1], some 0⟩, ⟨[1], [], some 0⟩, ⟨[1], [1], some 0⟩], 6, 1, 0⟩ :
        AdaptiveLayer ℚ).adapt ⟨fun _ => [], fun _ w => w⟩ 1 = none :=
  ⟨by decide, by decide,
    emptyHistoryAdaptPanics _ ⟨fun _ => [], fun _ w => w⟩ 1 (by decide) (by decide)⟩

/-! ## Claim C3 — resize discipline of the adaptation step -/

/-- C3: for an adaptation call that completes (no NaN-importance panic —
cf. `emptyHistoryAdaptPanics` — and, in the growth case, a nonempty bank —
cf. the underflow claim): with `s` above the threshold and size below the
maximum exactly one freshly-initialised unit (empty history, importance
`0`) is appended; with `s` below the threshold and size above the minimum
exactly the tail of the descending importance sort — a unit of minimal
importance — is removed; with `s` exactly at the threshold the unit count
is unchanged.  At most one unit is added or removed per call, never
both. -/
theorem adaptResizeDiscipline {α : Type} [LinearOrderedField α]
    (L : AdaptiveLayer α) (o : AdaptOracle α) (s : α)
    (hok : ¬(2 ≤ (L.neurons.map (AdaptiveNeuron.update_importance s)).length ∧
      ∃ n ∈ L.neurons.map (AdaptiveNeuron.update_importance s),
        n.importance_score = none)) :
    (L.adaptation_threshold < s → L.neurons.length < L.max_neurons →
      L.neurons ≠ [] →
      ∃ L', L.adapt o s = some L' ∧
        L'.neurons.length = L.neurons.length + 1 ∧
        ∃ last, L'.neurons.getLast? = some last ∧
          last.activation_history = [] ∧ last.importance_score = some 0) ∧
    (s < L.adaptation_threshold → L.min_neurons < L.neurons.length →
      ∃ L', L.adapt o s = some L' ∧
        L'.neurons.length + 1 = L.neurons.length ∧
        L'.neurons.map (fun n => (n.activation_history, n.importance_score))
          = (sortByImportance
              (L.neurons.map (AdaptiveNeuron.update_importance s))).dropLast.map
                (fun n => (n.activation_history, n.importance_score)) ∧
        ∃ dropped,
          (sortByImportance
            (L.neurons.map (AdaptiveNeuron.update_importance s))).getLast?
              = some dropped ∧
          ∀ n ∈ L.neurons.map (AdaptiveNeuron.update_importance s),
            importanceKey dropped ≤ importanceKey n) ∧
    (s = L.adaptation_threshold →
      ∃ L', L.adapt o s = some L' ∧ L'.neurons.length = L.neurons.length) := by
  have hlen : (sortByImportance
      (L.neurons.map (AdaptiveNeuron.update_importance s))).length
      = L.neurons.length := by
    rw [length_sortByImportance, List.length_map]
  refine ⟨?_, ?_, ?_⟩
  · -- growth branch
    intro hts hmax hne
    unfold AdaptiveLayer.adapt
    rw [if_neg hok]
    dsimp only
    have hcond : L.adaptation_threshold < s ∧
        (sortByImportance
          (L.neurons.map (AdaptiveNeuron.update_importance s))).length
          < L.max_neurons := ⟨hts, by rw [hlen]; exact hmax⟩
    rw [if_pos hcond]
    have hsne : sortByImportance
        (L.neurons.map (AdaptiveNeuron.update_importance s)) ≠ [] := by
      intro h
      rw [h] at hlen
      exact hne (List.length_eq_zero.mp hlen.symm)
    obtain ⟨n0, rest, hsrt⟩ := List.exists_cons_of_ne_nil hsne
    rw [hsrt]
    dsimp only [Option.map_some']
    refine ⟨_, rfl, ?_, ?_⟩
    · rw [List.length_map, List.enum_length, List.length_append, ← hsrt, hlen]
      simp
    · rw [List.enum, List.enumFrom_append]
      simp only [List.enumFrom, List.map_append, List.map_cons, List.map_nil]
      rw [List.getLast?_concat]
      refine ⟨_, rfl, ?_, ?_⟩ <;> simp [AdaptiveNeuron.new]
  · -- shrink branch
    intro hst hmin
    unfold AdaptiveLayer.adapt
    rw [if_neg hok]
    dsimp only
    have hng : ¬(L.adaptation_threshold < s ∧
        (sortByImportance
          (L.neurons.map (AdaptiveNeuron.update_importance s))).length
          < L.max_neurons) := fun hc => lt_asymm hc.1 hst
    rw [if_neg hng]
    have hcond : s < L.adaptation_threshold ∧
        L.min_neurons < (sortByImportance
          (L.neurons.map (AdaptiveNeuron.update_importance s))).length :=
      ⟨hst, by rw [hlen]; exact hmin⟩
    rw [if_pos hcond]
    dsimp only [Option.map_some']
    refine ⟨_, rfl, ?_, ?_, ?_⟩
    · rw [List.length_map, List.enum_length, List.length_dropLast, hlen]
      omega
    · rw [List.enum]
      exact pairs_enumFrom_map o.mutW 0 _
    · cases hgl : (sortByImportance
          (L.neurons.map (AdaptiveNeuron.update_importance s))).getLast? with
      | none =>
        exfalso
        rw [List.getLast?_eq_none_iff] at hgl
        rw [hgl] at hlen
        simp at hlen
        omega
      | some d =>
        refine ⟨d, rfl, ?_⟩
        intro n hn
        exact sorted_getLast?_min _ (sorted_sortByImportance _) d hgl n
          (mem_sortByImportance hn)
  · -- threshold hit exactly
    intro hseq
    unfold AdaptiveLayer.adapt
    rw [if_neg hok]
    dsimp only
    have hng : ¬(L.adaptation_threshold < s ∧
        (sortByImportance
          (L.neurons.map (AdaptiveNeuron.update_importance s))).length
          < L.max_neurons) := fun hc => absurd hc.1 (by rw [hseq]; exact lt_irrefl _)
    rw [if_neg hng]
    have hns : ¬(s < L.adaptation_threshold ∧
        L.min_neurons < (sortByImportance
          (L.neurons.map (AdaptiveNeuron.update_importance s))).length) :=
      fun hc => absurd hc.1 (by rw [hseq]; exact lt_irrefl _)
    rw [if_neg hns]
    dsimp only [Option.map_some']
    refine ⟨_, rfl, ?_⟩
    rw [List.length_map, List.enum_length, hlen]

/-- C3 (witness): the resize discipline applied to a concrete one-unit bank
(threshold `1`, state `0`, `min_neurons = 0`): the call completes and the
shrink branch removes exactly one unit. -/
theorem adaptResizeDisciplineWitness :
    (¬(2 ≤ ((⟨[⟨[], [], some 0⟩], 2, 0, 1⟩ : AdaptiveLayer ℚ).neurons.map
        (AdaptiveNeuron.update_importance 0)).length ∧
      ∃ n ∈ (⟨[⟨[], [], some 0⟩], 2, 0, 1⟩ : AdaptiveLayer ℚ).neurons.map
        (AdaptiveNeuron.update_importance 0), n.importance_score = none)) ∧
    ((0 : ℚ) < 1 ∧ (0 : ℕ) < 1) ∧
    (∃ L', (⟨[⟨[], [], some 0⟩], 2, 0, 1⟩ : AdaptiveLayer ℚ).adapt
        ⟨fun _ => [], fun _ w => w⟩ 0 = some L' ∧
      L'.neurons.length + 1
        = (⟨[⟨[], [], some 0⟩], 2, 0, 1⟩ : AdaptiveLayer ℚ).neurons.length) := by
  refine ⟨by decide, ⟨by decide, by decide⟩, ?_⟩
  obtain ⟨L', h1, h2, -, -⟩ :=
    (adaptResizeDiscipline (⟨[⟨[], [], some 0⟩], 2, 0, 1⟩ : AdaptiveLayer ℚ)
      ⟨fun _ => [], fun _ w => w⟩ 0 (by decide)).2.1 (by decide) (by decide)
  exact ⟨L', h1, h2⟩

/-! ## Claim C4 — size bounds are preserved -/

/-- One completing adaptation call preserves the size bounds (and the bound
fields themselves). -/
lemma adapt_preserves_bounds {α : Type} [LinearOrderedField α]
    (L : AdaptiveLayer α) (o : AdaptOracle α) (s : α) (L' : AdaptiveLayer α)
    (h : L.adapt o s = some L')
    (hmin : L.min_neurons ≤ L.neurons.length)
    (hmax : L.neurons.length ≤ L.max_neurons) :
    L'.min_neurons = L.min_neurons ∧ L'.max_neurons = L.max_neurons ∧
      L'.min_neurons ≤ L'.neurons.length ∧ L'.neurons.length ≤ L'.max_neurons := by
  have hlen : (sortByImportance
      (L.neurons.map (AdaptiveNeuron.update_importance s))).length
      = L.neurons.length := by
    rw [length_sortByImportance, List.length_map]
  unfold AdaptiveLayer.adapt at h
  by_cases hok : 2 ≤ (L.neurons.map (AdaptiveNeuron.update_importance s)).length ∧
      ∃ n ∈ L.neurons.map (AdaptiveNeuron.update_importance s),
        n.importance_score = none
  · rw [if_pos hok] at h
    exact absurd h (by simp)
  · rw [if_neg hok] at h
    dsimp only at h
    by_cases hg : L.adaptation_threshold < s ∧
        (sortByImportance
          (L.neurons.map (AdaptiveNeuron.update_importance s))).length
          < L.max_neurons
    · rw [if_pos hg] at h
      cases hsrt : sortByImportance
          (L.neurons.map (AdaptiveNeuron.update_importance s)) with
      | nil =>
        rw [hsrt] at h
        exact absurd h (by simp)
      | cons n0 rest =>
        rw [hsrt] at h
        simp only [Option.map_some', Option.some_inj] at h
        subst h
        refine ⟨rfl, rfl, ?_, ?_⟩ <;>
          simp only [List.length_map, List.enum_length, List.length_append,
            ← hsrt, hlen]
        · simp only [List.length_cons, List.length_nil]
          omega
        · have := hg.2
          rw [hlen] at this
          simp only [List.length_cons, List.length_nil]
          omega
    · rw [if_neg hg] at h
      by_cases hs : s < L.adaptation_threshold ∧
          L.min_neurons < (sortByImportance
            (L.neurons.map (AdaptiveNeuron.update_importance s))).length
      · rw [if_pos hs] at h
        simp only [Option.map_some', Option.some_inj] at h
        subst h
        have := hs.2
        rw [hlen] at this
        refine ⟨rfl, rfl, ?_, ?_⟩ <;>
          simp only [List.length_map, List.enum_length, List.length_dropLast, hlen]
        · omega
        · omega
      · rw [if_neg hs] at h
        simp only [Option.map_some', Option.some_inj] at h
        subst h
        refine ⟨rfl, rfl, ?_, ?_⟩ <;>
          simp only [List.length_map, List.enum_length, hlen]
        · exact hmin
        · exact hmax

lemma adaptSeq_cons {α : Type} [LinearOrderedField α]
    (st : AdaptOracle α × α) (rest : List (AdaptOracle α × α))
    (L : AdaptiveLayer α) :
    adaptSeq (st :: rest) L
      = (L.adapt st.1 st.2).bind (adaptSeq rest) := by
  unfold adaptSeq
  cases h : L.adapt st.1 st.2 with
  | none =>
    simp only [List.foldl_cons, Option.some_bind, h, Option.none_bind]
    induction rest with
    | nil => rfl
    | cons st2 rest2 ih => simpa using ih
  | some L2 => simp [List.foldl_cons, h]

/-- C4: starting from a bank whose size is within `[min_neurons,
max_neurons]`, after any finite sequence of completing adaptation calls —
arbitrary emotional states and random draws — the size is still within the
bounds (every prefix of the sequence is itself such a sequence, so the
bounds hold after each call). -/
theorem elasticSizeBoundsInvariant {α : Type} [LinearOrderedField α]
    (steps : List (AdaptOracle α × α)) (L L' : AdaptiveLayer α)
    (hmin : L.min_neurons ≤ L.neurons.length)
    (hmax : L.neurons.length ≤ L.max_neurons)
    (h : adaptSeq steps L = some L') :
    L'.min_neurons = L.min_neurons ∧ L'.max_neurons = L.max_neurons ∧
      L.min_neurons ≤ L'.neurons.length ∧ L'.neurons.length ≤ L.max_neurons := by
  induction steps generalizing L with
  | nil =>
    unfold adaptSeq at h
    simp only [List.foldl_nil, Option.some_inj] at h
    subst h
    exact ⟨rfl, rfl, hmin, hmax⟩
  | cons st rest ih =>
    rw [adaptSeq_cons] at h
    cases h1 : L.adapt st.1 st.2 with
    | none => rw [h1] at h; exact absurd h (by simp)
    | some L2 =>
      rw [h1] at h
      simp only [Option.some_bind] at h
      obtain ⟨e1, e2, b1, b2⟩ := adapt_preserves_bounds L st.1 st.2 L2 h1 hmin hmax
      obtain ⟨f1, f2, c1, c2⟩ := ih L2 (e1 ▸ b1) (e2 ▸ b2) h
      exact ⟨f1.trans e1, f2.trans e2, e1 ▸ f1 ▸ c1, e2 ▸ f2 ▸ c2⟩

/-- C4 (witness): the invariant applied to a concrete one-unit bank and a
one-step sequence that shrinks it to the empty bank. -/
theorem elasticSizeBoundsInvariantWitness :
    ((⟨[⟨[], [], some 0⟩], 2, 0, 1⟩ : AdaptiveLayer ℚ).min_neurons
        ≤ (⟨[⟨[], [], some 0⟩], 2, 0, 1⟩ : AdaptiveLayer ℚ).neurons.length) ∧
    ((⟨[⟨[], [], some 0⟩], 2, 0, 1⟩ : AdaptiveLayer ℚ).neurons.length
        ≤ (⟨[⟨[], [], some 0⟩], 2, 0, 1⟩ : AdaptiveLayer ℚ).max_neurons) ∧
    (adaptSeq [(⟨fun _ => [], fun _ w => w⟩, 0)]
        (⟨[⟨[], [], some 0⟩], 2, 0, 1⟩ : AdaptiveLayer ℚ)
      = some (⟨[], 2, 0, 1⟩ : AdaptiveLayer ℚ)) ∧
    ((0 : ℕ) ≤ ([] : List (AdaptiveNeuron ℚ)).length ∧
      ([] : List (AdaptiveNeuron ℚ)).length ≤ 2) := by
  refine ⟨by decide, by decide, by decide, ?_⟩
  have := elasticSizeBoundsInvariant [(⟨fun _ => [], fun _ w => w⟩, 0)]
    (⟨[⟨[], [], some 0⟩], 2, 0, 1⟩ : AdaptiveLayer ℚ)
    (⟨[], 2, 0, 1⟩ : AdaptiveLayer ℚ) (by decide) (by decide) (by decide)
  exact ⟨this.2.2.1, this.2.2.2⟩

/-! ## Claim C10 — min_neurons = 0 lets the bank collapse, then panics -/

/-- C10: a network built with layer size 1 and the adaptive flag set derives
`min_neurons = 1 / 2 = 0`, so one below-threshold adaptation call (state
`0 < 0.1`) removes the single unit; on the now-empty bank every backward
call fails (`self.neurons[0]`), and so does every adaptation call that
takes the growth branch (state `1 > 0.1`). -/
theorem elasticCollapseUnderflow (o : RngOracle) (ao : AdaptOracle ℝ)
    (e : List ℝ) (lr : ℝ) :
    ∃ A : AdaptiveLayer ℝ,
      (NeuroForge.new [1] [true] [false] o).adaptive_layers = [A] ∧
      A.min_neurons = 0 ∧ A.neurons.length = 1 ∧
      ∃ A', A.adapt ao 0 = some A' ∧ A'.neurons = [] ∧
        A'.backward e lr = none ∧ A'.adapt ao 1 = none := by
  refine ⟨AdaptiveLayer.new 1 2 0 (1 / 10) (o.aW 0), ?_, rfl, rfl, ?_⟩
  · simp [NeuroForge.new, buildLayers, AdaptiveLayer.new]
  · refine ⟨⟨[], 2, 0, 1 / 10⟩, ?_, rfl, rfl, ?_⟩
    · unfold AdaptiveLayer.adapt AdaptiveLayer.new AdaptiveNeuron.new
      rw [if_neg (by norm_num [AdaptiveNeuron.update_importance])]
      dsimp only
      norm_num [AdaptiveNeuron.update_importance, sortByImportance,
        List.insertionSort, List.orderedInsert]
    · unfold AdaptiveLayer.adapt
      rw [if_neg (by norm_num)]
      dsimp only
      norm_num [sortByImportance, List.insertionSort]

/-! ## Claim C2 — construction counts and forward-pass completion -/

/-- C2: on the configuration `[2, 3, 1]` with all flags false — the exact
configuration of the crate's own `test_forward_pass` — construction does
yield bank counts matching the flags (three stochastic banks, no others),
but the forward pass does *not* complete: each quantum layer owns a square
`size × size` matrix, so the second layer's `weights.dot(&input)` receives
a length-2 vector against a `3 × 3` matrix and panics, for every choice of
random weights and superposition draws. -/
theorem forwardShapeMismatchBug (o : RngOracle) (flips : ℕ → ℕ → Bool) :
    (NeuroForge.new [2, 3, 1] [false, false, false] [false, false, false]
        o).quantum_layers.length = 3 ∧
    (NeuroForge.new [2, 3, 1] [false, false, false] [false, false, false]
        o).adaptive_layers = [] ∧
    (NeuroForge.new [2, 3, 1] [false, false, false] [false, false, false]
        o).temporal_layers = [] ∧
    (NeuroForge.new [2, 3, 1] [false, false, false] [false, false, false]
        o).forward [1, 0] 0 flips = none := by
  refine ⟨by simp [NeuroForge.new, buildLayers],
    by simp [NeuroForge.new, buildLayers],
    by simp [NeuroForge.new, buildLayers], ?_⟩
  have hq : (NeuroForge.new [2, 3, 1] [false, false, false] [false, false, false]
      o).quantum_layers = [QuantumLayer.new 2 (o.qW 0), QuantumLayer.new 3 (o.qW 1),
        QuantumLayer.new 1 (o.qW 2)] := by
    simp [NeuroForge.new, buildLayers]
  unfold NeuroForge.forward
  rw [hq]
  -- the first layer accepts the length-2 input and emits a length-2 vector
  have h1 : ∀ out L', (QuantumLayer.new 2 (o.qW 0)).forward [1, 0]
      (NeuroForge.new [2, 3, 1] [false, false, false] [false, false, false]
        o).emotional_state (flips 0) = some (out, L') → out.length = 2 := by
    intro out L' h
    unfold QuantumLayer.forward at h
    rw [if_pos (by simp [QuantumLayer.new])] at h
    simp only [Option.some_inj] at h
    have := congrArg (fun p => p.1.length) h
    simp only at this
    rw [← this]
    simp [QuantumLayer.new]
  -- and the second layer rejects any length-2 vector
  have h2 : ∀ (cur : List ℝ), cur.length = 2 →
      (QuantumLayer.new 3 (o.qW 1)).forward cur
        (NeuroForge.new [2, 3, 1] [false, false, false] [false, false, false]
          o).emotional_state (flips 1) = none := by
    intro cur hcur
    unfold QuantumLayer.forward
    rw [if_neg]
    simp [QuantumLayer.new, hcur]
  cases hf : (QuantumLayer.new 2 (o.qW 0)).forward [1, 0]
      (NeuroForge.new [2, 3, 1] [false, false, false] [false, false, false]
        o).emotional_state (flips 0) with
  | none => simp [qForwardList, hf]
  | some p =>
    obtain ⟨out, L'⟩ := p
    simp only [qForwardList, hf, Option.bind_eq_bind, Option.some_bind]
    rw [h2 out (h1 out L' hf)]
    simp

/-! ## Claim C5 — symbolic overlay with the single "sum" rule -/

/-- C5: with exactly one rule `"sum" = Σx`: `process([1,2,3])` yields
`[1,2,3,6]`; `explain()` yields exactly one string, ending in `"6.00"`;
the central finite differences (`ε = 1e-5`) of the rule at the cached
vector are exactly `1`; and `backward([0.1,0.2,0.3,0.4])` returns the
3-element vector whose component `i` is the direct error at `i` plus
`0.4 · ∂sum/∂xᵢ` (= `[0.5, 0.6, 0.7]`). -/
theorem symbolicSumRuleBehaviour :
    ((⟨[("sum", fun l => l.sum)], []⟩ : NeuroSymbolicLayer ℚ).process [1, 2, 3]).1
      = [1, 2, 3, 6] ∧
    ((⟨[("sum", fun l => l.sum)], []⟩ :
        NeuroSymbolicLayer ℚ).process [1, 2, 3]).2.explain
      = ["Rule " ++ squote ++ "sum" ++ squote ++ " output: " ++ "6.00"] ∧
    centralDiff (fun l : List ℚ => l.sum) [1, 2, 3] 0 = 1 ∧
    centralDiff (fun l : List ℚ => l.sum) [1, 2, 3] 1 = 1 ∧
    centralDiff (fun l : List ℚ => l.sum) [1, 2, 3] 2 = 1 ∧
    ((⟨[("sum", fun l => l.sum)], []⟩ :
        NeuroSymbolicLayer ℚ).process [1, 2, 3]).2.backward
          [1 / 10, 2 / 10, 3 / 10, 4 / 10]
      = some [1 / 10 + 4 / 10 * 1, 2 / 10 + 4 / 10 * 1, 3 / 10 + 4 / 10 * 1] := by
  have hcd : ∀ i, i < 3 → centralDiff (fun l : List ℚ => l.sum) [1, 2, 3] i = 1 := by
    intro i hi
    interval_cases i <;> norm_num [centralDiff]
  have hfmt : fmt2 6 = "6.00" := by decide
  refine ⟨?_, ?_, hcd 0 (by norm_num), hcd 1 (by norm_num), hcd 2 (by norm_num), ?_⟩
  · norm_num [NeuroSymbolicLayer.process]
  · simp only [NeuroSymbolicLayer.process, NeuroSymbolicLayer.explain,
      List.map_cons, List.map_nil]
    rw [show ([1, 2, 3] : List ℚ).sum = 6 by norm_num, hfmt]
  · simp only [NeuroSymbolicLayer.process, NeuroSymbolicLayer.backward]
    norm_num [List.ofFn_succ, List.enum, List.enumFrom, hcd 0 (by norm_num),
      hcd 1 (by norm_num), hcd 2 (by norm_num)]

/-! ## Claim C9 — the backward pass seeds with the raw target -/

/-- Dropping the collected layer states from `threadBack` gives exactly the
error-only fold. -/
lemma threadBack_map_fst {L : Type} (f : L → List ℝ → ℝ → Option (List ℝ × L)) :
    ∀ (ls : List L) (e : List ℝ) (lr : ℝ),
      (threadBack f ls e lr).map Prod.fst = errFold f ls e lr := by
  intro ls
  induction ls with
  | nil => intro e lr; simp [threadBack, errFold]
  | cons l ls ih =>
    intro e lr
    simp only [threadBack, errFold, Option.bind_eq_bind]
    cases h : f l e lr with
    | none => simp
    | some p =>
      simp only [Option.some_bind]
      rw [← ih p.1 lr]
      cases h2 : threadBack f ls p.1 lr with
      | none => simp
      | some q => simp

/-- C9: `NeuroForge::backward` hands the raw target vector itself to the
symbolic overlay's backward (not the difference between the latest forward
output and the target), threads the error through temporal, adaptive and
quantum banks in reverse pipeline order, and its returned scalar is the
mean of squares of the fully back-propagated vector — for every network
state, target and learning rate the source computation agrees with that
description (`NeuroForge.backwardSpec`). -/
theorem backwardSeedsWithTarget (net : NeuroForge) (target : List ℝ)
    (learning_rate : ℝ) :
    (net.backward target learning_rate).map Prod.fst
      = net.backwardSpec target learning_rate := by
  unfold NeuroForge.backward NeuroForge.backwardSpec
  cases h0 : net.neuro_symbolic_layer.backward target with
  | none => simp
  | some e0 =>
    simp only [Option.some_bind, Option.bind_eq_bind]
    rw [← threadBack_map_fst]
    cases h1 : threadBack TemporalLayer.backward net.temporal_layers.reverse
        e0 learning_rate with
    | none => simp
    | some p1 =>
      simp only [Option.map_some', Option.some_bind]
      rw [← threadBack_map_fst]
      cases h2 : threadBack AdaptiveLayer.backward net.adaptive_layers.reverse
          p1.1 learning_rate with
      | none => simp
      | some p2 =>
        simp only [Option.map_some', Option.some_bind]
        rw [← threadBack_map_fst]
        cases h3 : threadBack (fun L e lr => some (QuantumLayer.backward L e lr))
            net.quantum_layers.reverse p2.1 learning_rate with
        | none => simp
        | some p3 => simp [meanSquares]
